import Mathlib

/-!
Shallow embedding of `src/main.py` (SteampunkIslande/adaptive-tree-widget).

The embedded program is an adaptive form: a tree of nodes built from a JSON
schema.  Each node holds a name, an ordered mapping of leaf input fields and
an ordered mapping of child nodes, of which at most one is selected at a
time.  `data` collapses the active path of the tree into one string.

Modelling conventions:
* Python `dict`s (insertion ordered, unique keys, assignment keeps the
  original position of an existing key) become association lists with a
  `dictInsert` operation mirroring `d[k] = v`.
* Python functions that can raise become `Option`/`Except`-valued
  functions; each `none`/`.error` corresponds to a concrete `raise`
  site (`KeyError`, `AttributeError`, `NotImplementedError`, parse errors).
* `str.split` / `str.join` are embedded by the recursive functions
  `pySplitCh` / `pyJoinS`, which implement exactly Python's semantics for a
  one-character separator (empty pieces kept, `"".split(sep) == [""]`).
* Qt state that matters to the core is kept: a node's combo-box current
  text (`comboText`), the selected child reference (`selected`, identified
  by its key, keys being unique), and each widget's shown/hidden flag
  (`visible`).
-/

namespace AdaptiveTreeWidget

/-- Embedding of Python `raw.split(sep)` for a single-character separator,
working on the character list of the string: empty pieces are kept and the
split of an empty input is `[[]]` (one empty piece). -/
def pySplitCh (sep : Char) : List Char → List (List Char)
  | [] => [[]]
  | c :: rest =>
    if c = sep then [] :: pySplitCh sep rest
    else
      match pySplitCh sep rest with
      | [] => [[c]]
      | l :: ls => (c :: l) :: ls

/-- Embedding of Python `sep.join(pieces)` on strings. -/
def pyJoinS (sep : String) : List String → String
  | [] => ""
  | [x] => x
  | x :: y :: xs => x ++ sep ++ pyJoinS sep (y :: xs)

/-- `MultipleTextEdit.data` (src/main.py line 55):
`", ".join(self._te.toPlainText().split("\n"))`. -/
def multipleTextEditData (raw : String) : String :=
  pyJoinS ", " ((pySplitCh '\n' raw.data).map (fun l => String.mk l))

/-- The user-field classes of src/main.py: `LineEditField`,
`MultipleTextEdit` and `MultipleFilesEdit` (the last one has an empty class
body, so it inherits `UserField.data`, which raises
`NotImplementedError`). -/
inductive FieldClass where
  | lineEditField
  | multipleTextEdit
  | multipleFilesEdit
deriving DecidableEq, Repr

/-- A single constructed user field: its placeholder name, its class and
the raw text currently held by its input widget. -/
structure Field where
  name : String
  klass : FieldClass
  rawValue : String
deriving DecidableEq, Repr

/-- The `data` method of a user field, dispatched on its class.
`LineEditField.data` returns the line edit's text; `MultipleTextEdit.data`
joins the lines of the text edit with `", "`; `MultipleFilesEdit` inherits
`UserField.data`, which raises `NotImplementedError` (hence `none`). -/
def Field.data (f : Field) : Option String :=
  match f.klass with
  | .lineEditField => some f.rawValue
  | .multipleTextEdit => some (multipleTextEditData f.rawValue)
  | .multipleFilesEdit => none

/-- `AdaptiveTreeNode.SUPPORTED_USER_FIELD_TYPES` (src/main.py lines
69-73), mapping a field-kind identifier to the class used to build it. -/
def SUPPORTED_USER_FIELD_TYPES : List (String × FieldClass) :=
  [("LineEdit", .lineEditField),
   ("MultipleTextEdit", .multipleTextEdit),
   ("MultipleFilesEdit", .multipleTextEdit)]

/-- Dictionary lookup `d[k]` on an association list: first matching key. -/
def alookup {α : Type} : List (String × α) → String → Option α
  | [], _ => none
  | (k, v) :: rest, key => if k = key then some v else alookup rest key

/-- Python dict assignment `d[k] = v` on an association list: overwrite in
place when the key exists, else append at the end. -/
def dictInsert {α : Type} : List (String × α) → String → α → List (String × α)
  | [], k, v => [(k, v)]
  | (k0, v0) :: rest, k, v =>
    if k0 = k then (k0, v) :: rest else (k0, v0) :: dictInsert rest k v

/-- One entry of a schema fragment's `properties` list.  Both keys are
accessed with `info["name"]` / `info["field"]` in the source, so a missing
key is a `KeyError`; they are therefore optional here. -/
structure PropertyInfo where
  name : Option String
  field : Option String
deriving DecidableEq, Repr

mutual

/-- A schema fragment as consumed by `AdaptiveTreeNode.__init__`:
`tree["name"]` (a `KeyError` when absent), and the optional keys
`"properties"` and `"subwidgets"` whose presence is tested with `in`. -/
inductive Schema where
  | mk (name : Option String) (properties : Option (List PropertyInfo))
       (subwidgets : Option SchemaList)
deriving Repr

/-- A list of nested schema fragments (the `"subwidgets"` value). -/
inductive SchemaList where
  | nil
  | cons (head : Schema) (tail : SchemaList)
deriving Repr

end

mutual

/-- A constructed `AdaptiveTreeNode`:
`_name`, `_properties_widgets` (ordered name-keyed dict of user fields),
`_subwidgets` (ordered name-keyed dict of child nodes), the combo box's
current text (`none` when `_select_combo is None`), `_selected_widget`
(identified by its key; `none` when `None`), and the widget's own
shown/hidden flag. -/
inductive Node where
  | mk (name : String) (props : List (String × Field)) (subs : Subs)
       (comboText : Option String) (selected : Option String)
       (visible : Bool)
deriving DecidableEq, Repr

/-- The ordered dictionary `_subwidgets`: child key to child node. -/
inductive Subs where
  | nil
  | cons (key : String) (child : Node) (tail : Subs)
deriving DecidableEq, Repr

end

def Node.name : Node → String
  | .mk n _ _ _ _ _ => n

def Node.props : Node → List (String × Field)
  | .mk _ p _ _ _ _ => p

def Node.subs : Node → Subs
  | .mk _ _ s _ _ _ => s

def Node.comboText : Node → Option String
  | .mk _ _ _ c _ _ => c

def Node.selected : Node → Option String
  | .mk _ _ _ _ s _ => s

def Node.visible : Node → Bool
  | .mk _ _ _ _ _ v => v

/-- `widget.show()` / `widget.hide()`: set the shown/hidden flag. -/
def Node.setVisible : Node → Bool → Node
  | .mk n p s c sel _, v => .mk n p s c sel v

def Subs.isNil : Subs → Bool
  | .nil => true
  | .cons _ _ _ => false

/-- Lookup `self._subwidgets[key]` (first matching key). -/
def Subs.lookup : Subs → String → Option Node
  | .nil, _ => none
  | .cons k c t, key => if k = key then some c else Subs.lookup t key

/-- `key in self._subwidgets`. -/
def Subs.hasKey : Subs → String → Bool
  | .nil, _ => false
  | .cons k _ t, key => if k = key then true else Subs.hasKey t key

/-- How many children are registered under a given key. -/
def Subs.countKey : Subs → String → Nat
  | .nil, _ => 0
  | .cons k _ t, key =>
    (if k = key then 1 else 0) + Subs.countKey t key

/-- `self._subwidgets[key] = child` (Python dict assignment). -/
def Subs.dictInsertS : Subs → String → Node → Subs
  | .nil, k, v => .cons k v .nil
  | .cons k0 c0 t, k, v =>
    if k0 = k then .cons k0 v t else .cons k0 c0 (Subs.dictInsertS t k v)

/-- The keys of `_subwidgets` have no duplicates (guaranteed by dict
construction; needed to state "exactly one child is active"). -/
def Subs.nodupKeys : Subs → Bool
  | .nil => true
  | .cons k _ t => (!Subs.hasKey t k) && Subs.nodupKeys t

/-- The loop body of `update_subwidgets`: each child is shown when its key
equals the requested name and hidden otherwise. -/
def Subs.updateVis : Subs → String → Subs
  | .nil, _ => .nil
  | .cons k c t, name =>
    .cons k (c.setVisible (k == name)) (Subs.updateVis t name)

/-- `AdaptiveTreeNode.update_subwidgets(name)` (src/main.py lines
169-178): show the child whose key is `name` and remember it as
`_selected_widget`, hide every other child.  When no child matches,
`_selected_widget` is left unchanged and every child ends up hidden; no
error is raised. -/
def updateSubwidgets : Node → String → Node
  | .mk nm props subs combo sel vis, name =>
    .mk nm props (subs.updateVis name) combo
       (if subs.hasKey name then some name else sel) vis

/-- A user changing the node's combo box to item `name`: the combo box only
offers its items (the `_subwidgets` keys it was populated with at
construction) and `currentTextChanged` fires only on an actual change, upon
which `on_selection_changed` calls `update_subwidgets(name)`.  A node
without a combo box (`_select_combo is None`) offers no selector. -/
def userSelect : Node → String → Node
  | n@(.mk nm props subs (some t) sel vis), name =>
    if subs.hasKey name then
      if t = name then n
      else updateSubwidgets (.mk nm props subs (some name) sel vis) name
    else n
  | n, _ => n

/-- The toolkit writing text `v` into the input widget of the field
registered under `fname` (a `QLineEdit.setText` / typing into the
`QTextEdit`): only that field's raw value changes. -/
def setPropsRaw : List (String × Field) → String → String → List (String × Field)
  | [], _, _ => []
  | (k, f) :: t, fname, v =>
    if k = fname then (k, { f with rawValue := v }) :: t
    else (k, f) :: setPropsRaw t fname v

def Node.setFieldRaw : Node → String → String → Node
  | .mk nm props subs combo sel vis, fname, v =>
    .mk nm (setPropsRaw props fname v) subs combo sel vis

mutual

/-- Apply an operation to the node reached by following the given child
keys from `n` (the empty path is `n` itself).  This models calling a method
on one particular node object of the live tree. -/
def Node.modifyAt : Node → List String → (Node → Node) → Node
  | n, [], f => f n
  | .mk nm props subs combo sel vis, k :: ks, f =>
    .mk nm props (Subs.modifyAtS subs k ks f) combo sel vis

def Subs.modifyAtS : Subs → String → List String → (Node → Node) → Subs
  | .nil, _, _, _ => .nil
  | .cons k0 c t, k, ks, f =>
    if k0 = k then .cons k0 (c.modifyAt ks f) t
    else .cons k0 c (Subs.modifyAtS t k ks f)

end

/-- `", ".join([prop.data() for prop in self._properties_widgets.values()])`,
evaluated left to right; `none` as soon as one field's `data` raises. -/
def fieldsData : List (String × Field) → Option (List String)
  | [] => some []
  | (_, f) :: t =>
    match f.data, fieldsData t with
    | some v, some vs => some (v :: vs)
    | _, _ => none

/-- `result = self._name`, then, if `_properties_widgets` is non-empty,
`result += " " + ", ".join(field values)`; `none` when some field's `data`
raises. -/
def dataStep1 (nm : String) (props : List (String × Field)) : Option String :=
  if props.isEmpty then some nm
  else Option.map (fun vs => nm ++ " " ++ pyJoinS ", " vs) (fieldsData props)

/-- `result += " " + self._selected_widget.data()`: both the text so far
and the selected child's `data()` must have succeeded. -/
def mergeParts : Option String → Option String → Option String
  | some r, some d => some (r ++ " " ++ d)
  | _, _ => none

mutual

/-- `AdaptiveTreeNode.data` (src/main.py lines 187-201).  The Boolean
argument embeds `isinstance(self.parent(), AdaptiveTreeNode)`: `true` for a
node whose parent is a tree node (every child node), `false` for the root,
whose parent is the `AdaptiveTreeForm`.
Non-root: `result = self._name`; if `_properties_widgets` is non-empty,
append a space and the comma-joined field values; if `_subwidgets` is
non-empty, append a space and `self._selected_widget.data()`
(an `AttributeError`, hence `none`, were `_selected_widget` still `None`).
Root: return `self._subwidgets[self._select_combo.currentText()].data()`
(`none` embeds the `AttributeError` when there is no combo box and the
`KeyError` when the current text is not a key). -/
def Node.data : Node → Bool → Option String
  | .mk nm props subs _ sel _, true =>
    if subs.isNil then dataStep1 nm props
    else
      mergeParts (dataStep1 nm props)
        (match sel with
         | none => none
         | some k => Subs.dataOf subs k)
  | .mk _ _ subs combo _ _, false =>
    match combo with
    | none => none
    | some t => Subs.dataOf subs t

/-- `self._subwidgets[key].data()` for a child (whose parent is a node). -/
def Subs.dataOf : Subs → String → Option String
  | .nil, _ => none
  | .cons k c t, key =>
    if k = key then c.data true else Subs.dataOf t key

end

/-- Errors a schema load can raise: the JSON resource fails to parse, a
dict subscript misses its key (`KeyError`, e.g. `tree["name"]`), or a
property names a field kind absent from `SUPPORTED_USER_FIELD_TYPES`
(the `KeyError` on that registry lookup). -/
inductive LoadError where
  | schemaParse
  | keyError
  | unknownFieldKind
deriving DecidableEq, Repr

/-- The `properties` loop of `AdaptiveTreeNode.__init__` (src/main.py lines
144-148), mirroring the evaluation order of
`SUPPORTED_USER_FIELD_TYPES[info["field"]](self, info["name"])`:
fetch `info["field"]`, resolve it in the registry, fetch `info["name"]`,
construct the field, insert it into `_properties_widgets`. -/
def buildPropsGo : List PropertyInfo → List (String × Field) →
    Except LoadError (List (String × Field))
  | [], acc => .ok acc
  | p :: rest, acc =>
    match p.field with
    | none => .error .keyError
    | some fk =>
      match alookup SUPPORTED_USER_FIELD_TYPES fk with
      | none => .error .unknownFieldKind
      | some klass =>
        match p.name with
        | none => .error .keyError
        | some fname =>
          buildPropsGo rest (dictInsert acc fname ⟨fname, klass, ""⟩)

/-- The tail of `AdaptiveTreeNode.__init__` once `_subwidgets` and
`_properties_widgets` are filled: if `_subwidgets` is non-empty, the combo
box is created and populated with the keys (its current text becoming the
first key), and `update_subwidgets(currentText)` selects and shows that
first child while hiding the others.  A freshly constructed widget is not
yet shown. -/
def finishBuild (nm : String) (props : List (String × Field)) (subs : Subs) :
    Node :=
  match subs with
  | .nil => .mk nm props subs none none false
  | .cons k _ _ => updateSubwidgets (.mk nm props subs (some k) none false) k

/-- `if "properties" in tree:` — absent key means no fields. -/
def buildPropsOpt : Option (List PropertyInfo) →
    Except LoadError (List (String × Field))
  | none => .ok []
  | some pl => buildPropsGo pl []

mutual

/-- `AdaptiveTreeNode.__init__` (src/main.py lines 75-167).
`tree["name"]` first (a `KeyError` when absent), then the `subwidgets`
loop (children built recursively and inserted into the `_subwidgets` dict),
then the `properties` loop, then `finishBuild` (combo creation and the
initial `update_subwidgets` call). -/
def buildNode : Schema → Except LoadError Node
  | .mk nameOpt propsOpt subsOpt =>
    match nameOpt with
    | none => .error .keyError
    | some nm =>
      Except.bind (buildSubsOpt subsOpt) (fun subs =>
        Except.bind (buildPropsOpt propsOpt) (fun props =>
          .ok (finishBuild nm props subs)))

/-- `if "subwidgets" in tree:` — absent key means no children. -/
def buildSubsOpt : Option SchemaList → Except LoadError Subs
  | none => .ok .nil
  | some l => buildSubsGo l .nil

/-- The `subwidgets` loop: build each child, then
`self._subwidgets[info["name"]] = subwidget` (the child itself already read
the same `"name"` key, so the key is the child's name). -/
def buildSubsGo : SchemaList → Subs → Except LoadError Subs
  | .nil, acc => .ok acc
  | .cons s rest, acc =>
    match buildNode s with
    | .error e => .error e
    | .ok c => buildSubsGo rest (acc.dictInsertS c.name c)

end

/-- `AdaptiveTreeForm`: owns `_root` (`None` until a load succeeds). -/
structure AdaptiveTreeForm where
  root : Option Node
deriving DecidableEq, Repr

/-- `AdaptiveTreeForm.data` (src/main.py lines 218-220): `None` when no
root is loaded, else the root's `data()` (whose own failure is also
`none`). -/
def AdaptiveTreeForm.data (f : AdaptiveTreeForm) : Option String :=
  match f.root with
  | none => none
  | some r => r.data false

/-- `AdaptiveTreeForm.load_from_file` (src/main.py lines 209-216) as a
state transformer.  The argument is the outcome of `json.load` on the
resource (`.error .schemaParse` when the file is not well-formed JSON).
`self._root = AdaptiveTreeNode(self, tree)` evaluates the right-hand side
first, so when parsing or construction raises, the assignment never
happens: the error is reported and the form keeps its previous root. -/
def AdaptiveTreeForm.load_from_file (form : AdaptiveTreeForm)
    (parsed : Except LoadError Schema) : AdaptiveTreeForm × Option LoadError :=
  match parsed with
  | .error e => (form, some e)
  | .ok tree =>
    match buildNode tree with
    | .error e => (form, some e)
    | .ok root => ({ root := some root }, none)

/-- Every child is currently hidden. -/
def Subs.allHidden : Subs → Bool
  | .nil => true
  | .cons _ c t => (!c.visible) && Subs.allHidden t

/-- The first key of the `_subwidgets` dict (iteration order). -/
def Subs.firstKey : Subs → Option String
  | .nil => none
  | .cons k _ _ => some k

mutual

/-- The "exactly one active child" invariant, over the whole subtree:
every node whose `_subwidgets` is non-empty has no duplicate keys and a
`_selected_widget` pointing at exactly one of its children. -/
def Node.activeInv : Node → Bool
  | .mk _ _ subs _ sel _ =>
    (subs.isNil ||
      (subs.nodupKeys &&
        (match sel with
         | some k => subs.countKey k == 1
         | none => false))) && subs.activeInvAll

def Subs.activeInvAll : Subs → Bool
  | .nil => true
  | .cons _ c t => c.activeInv && t.activeInvAll

end

mutual

/-- The combo-box synchronisation invariant, over the whole subtree: every
node with children has a combo box whose current text equals the key of the
`_selected_widget` and names an existing child.  It holds after
construction and the combo box is the only place selection changes come
from in the running program. -/
def Node.syncInv : Node → Bool
  | .mk _ _ subs combo sel _ =>
    (subs.isNil ||
      (match combo, sel with
       | some a, some b => (a == b) && subs.hasKey a
       | _, _ => false)) && subs.syncInvAll

def Subs.syncInvAll : Subs → Bool
  | .nil => true
  | .cons _ c t => c.syncInv && t.syncInvAll

end

mutual

/-- Immediately after construction, every node with children has its first
child (in dict iteration order) selected. -/
def Node.firstSel : Node → Bool
  | .mk _ _ subs _ sel _ =>
    (match subs.firstKey with
     | none => true
     | some k => sel == some k) && subs.firstSelAll

def Subs.firstSelAll : Subs → Bool
  | .nil => true
  | .cons _ c t => c.firstSel && t.firstSelAll

end

mutual

/-- All field raw values of the whole subtree, in tree order. -/
def Node.allRawValues : Node → List String
  | .mk _ props subs _ _ _ =>
    props.map (fun p => p.2.rawValue) ++ subs.allRawValuesS

def Subs.allRawValuesS : Subs → List String
  | .nil => []
  | .cons _ c t => c.allRawValues ++ t.allRawValuesS

end

/-- The runtime states the program can put a loaded tree in: the result of
a successful build, further transformed by user selection events on any
node's combo box and by the toolkit writing field text. -/
inductive Reach : Node → Prop where
  | built (s : Schema) (n : Node) : buildNode s = .ok n → Reach n
  | select (n : Node) (path : List String) (name : String) :
      Reach n → Reach (n.modifyAt path (fun m => userSelect m name))
  | edit (n : Node) (path : List String) (fname v : String) :
      Reach n → Reach (n.modifyAt path (fun m => m.setFieldRaw fname v))

/-! ### Induction principles for the mutual inductive types -/

theorem subsInduction {motive : Subs → Prop} (nil : motive .nil)
    (cons : ∀ k c t, motive t → motive (.cons k c t)) : ∀ s, motive s
  | .nil => nil
  | .cons k c t => cons k c t (subsInduction nil cons t)

mutual

theorem nodeMutualInd {P : Node → Prop} {Q : Subs → Prop}
    (hmk : ∀ nm props subs combo sel vis,
      Q subs → P (.mk nm props subs combo sel vis))
    (hnil : Q .nil)
    (hcons : ∀ k c t, P c → Q t → Q (.cons k c t)) : ∀ n, P n
  | .mk nm props subs combo sel vis =>
    hmk nm props subs combo sel vis (subsMutualInd hmk hnil hcons subs)

theorem subsMutualInd {P : Node → Prop} {Q : Subs → Prop}
    (hmk : ∀ nm props subs combo sel vis,
      Q subs → P (.mk nm props subs combo sel vis))
    (hnil : Q .nil)
    (hcons : ∀ k c t, P c → Q t → Q (.cons k c t)) : ∀ s, Q s
  | .nil => hnil
  | .cons k c t =>
    hcons k c t (nodeMutualInd hmk hnil hcons c) (subsMutualInd hmk hnil hcons t)

end

theorem schemaListInduction {motive : SchemaList → Prop} (nil : motive .nil)
    (cons : ∀ h t, motive t → motive (.cons h t)) : ∀ l, motive l
  | .nil => nil
  | .cons h t => cons h t (schemaListInduction nil cons t)

mutual

theorem schemaMutualInd {P : Schema → Prop} {Q : SchemaList → Prop}
    (hmk : ∀ nm props subw,
      (∀ l, subw = some l → Q l) → P (.mk nm props subw))
    (hnil : Q .nil)
    (hcons : ∀ h t, P h → Q t → Q (.cons h t)) : ∀ s, P s
  | .mk nm props subw =>
    hmk nm props subw (fun l _ =>
      schemaListMutualInd hmk hnil hcons l)

theorem schemaListMutualInd {P : Schema → Prop} {Q : SchemaList → Prop}
    (hmk : ∀ nm props subw,
      (∀ l, subw = some l → Q l) → P (.mk nm props subw))
    (hnil : Q .nil)
    (hcons : ∀ h t, P h → Q t → Q (.cons h t)) : ∀ l, Q l
  | .nil => hnil
  | .cons h t =>
    hcons h t (schemaMutualInd hmk hnil hcons h)
      (schemaListMutualInd hmk hnil hcons t)

end

/-! ### Basic lemmas: show/hide only touches the `visible` flag -/

theorem setVisible_data (n : Node) (b : Bool) (flag : Bool) :
    (n.setVisible b).data flag = n.data flag := by
  cases n with
  | mk nm props subs combo sel vis => cases flag <;> rfl

theorem setVisible_activeInv (n : Node) (b : Bool) :
    (n.setVisible b).activeInv = n.activeInv := by
  cases n with
  | mk nm props subs combo sel vis => rfl

theorem setVisible_syncInv (n : Node) (b : Bool) :
    (n.setVisible b).syncInv = n.syncInv := by
  cases n with
  | mk nm props subs combo sel vis => rfl

theorem setVisible_allRawValues (n : Node) (b : Bool) :
    (n.setVisible b).allRawValues = n.allRawValues := by
  cases n with
  | mk nm props subs combo sel vis => rfl

/-! ### Lemmas about `updateVis` (the loop of `update_subwidgets`) -/

theorem updateVis_hasKey (s : Subs) (name key : String) :
    (s.updateVis name).hasKey key = s.hasKey key := by
  induction s using subsInduction with
  | nil => rfl
  | cons k c t ih => simp [Subs.updateVis, Subs.hasKey, ih]

theorem updateVis_countKey (s : Subs) (name key : String) :
    (s.updateVis name).countKey key = s.countKey key := by
  induction s using subsInduction with
  | nil => rfl
  | cons k c t ih => simp [Subs.updateVis, Subs.countKey, ih]

theorem updateVis_nodupKeys (s : Subs) (name : String) :
    (s.updateVis name).nodupKeys = s.nodupKeys := by
  induction s using subsInduction with
  | nil => rfl
  | cons k c t ih => simp [Subs.updateVis, Subs.nodupKeys, updateVis_hasKey, ih]

theorem updateVis_dataOf (s : Subs) (name key : String) :
    (s.updateVis name).dataOf key = s.dataOf key := by
  induction s using subsInduction with
  | nil => rfl
  | cons k c t ih => simp [Subs.updateVis, Subs.dataOf, setVisible_data, ih]

theorem updateVis_activeInvAll (s : Subs) (name : String) :
    (s.updateVis name).activeInvAll = s.activeInvAll := by
  induction s using subsInduction with
  | nil => rfl
  | cons k c t ih =>
    simp [Subs.updateVis, Subs.activeInvAll, setVisible_activeInv, ih]

theorem updateVis_syncInvAll (s : Subs) (name : String) :
    (s.updateVis name).syncInvAll = s.syncInvAll := by
  induction s using subsInduction with
  | nil => rfl
  | cons k c t ih =>
    simp [Subs.updateVis, Subs.syncInvAll, setVisible_syncInv, ih]

theorem updateVis_allRawValuesS (s : Subs) (name : String) :
    (s.updateVis name).allRawValuesS = s.allRawValuesS := by
  induction s using subsInduction with
  | nil => rfl
  | cons k c t ih =>
    simp [Subs.updateVis, Subs.allRawValuesS, setVisible_allRawValues, ih]

theorem updateVis_allHidden (s : Subs) (name : String)
    (h : s.hasKey name = false) : (s.updateVis name).allHidden = true := by
  induction s using subsInduction with
  | nil => rfl
  | cons k c t ih =>
    simp only [Subs.hasKey] at h
    by_cases hk : k = name
    · simp [hk] at h
    · simp [hk] at h
      simp [Subs.updateVis, Subs.allHidden, Node.setVisible, ih h]
      cases c with
      | mk a b cc d e f => simp [Node.setVisible, Node.visible, hk]

/-! ### Lemmas about lookup, keys and counts -/

theorem lookup_isSome_of_hasKey (s : Subs) (key : String)
    (h : s.hasKey key = true) : (s.lookup key).isSome = true := by
  induction s using subsInduction with
  | nil => simp [Subs.hasKey] at h
  | cons k c t ih =>
    simp only [Subs.hasKey] at h
    by_cases hk : k = key
    · simp [Subs.lookup, hk]
    · simp [hk] at h
      simp [Subs.lookup, hk, ih h]

theorem dataOf_eq_of_lookup (s : Subs) (key : String) (c : Node)
    (h : s.lookup key = some c) : s.dataOf key = c.data true := by
  induction s using subsInduction with
  | nil => simp [Subs.lookup] at h
  | cons k c0 t ih =>
    by_cases hk : k = key
    · simp [Subs.lookup, hk] at h
      simp [Subs.dataOf, hk, h]
    · simp [Subs.lookup, hk] at h
      simp [Subs.dataOf, hk, ih h]

theorem countKey_eq_zero_of_not_hasKey (s : Subs) (key : String)
    (h : s.hasKey key = false) : s.countKey key = 0 := by
  induction s using subsInduction with
  | nil => rfl
  | cons k c t ih =>
    simp only [Subs.hasKey] at h
    by_cases hk : k = key
    · simp [hk] at h
    · simp [hk] at h
      simp [Subs.countKey, hk, ih h]

theorem countKey_eq_one_of_nodup_hasKey (s : Subs) (key : String)
    (hd : s.nodupKeys = true) (h : s.hasKey key = true) :
    s.countKey key = 1 := by
  induction s using subsInduction with
  | nil => simp [Subs.hasKey] at h
  | cons k c t ih =>
    simp only [Subs.nodupKeys, Bool.and_eq_true, Bool.not_eq_true'] at hd
    by_cases hk : k = key
    · subst hk
      simp [Subs.countKey, countKey_eq_zero_of_not_hasKey t k hd.1]
    · simp only [Subs.hasKey, if_neg hk] at h
      simp [Subs.countKey, hk, ih hd.2 h]

/-! ### The "exactly one active child" invariant is preserved -/

theorem updateVis_isNil (s : Subs) (name : String) :
    (s.updateVis name).isNil = s.isNil := by
  cases s <;> rfl

theorem updateVis_firstKey (s : Subs) (name : String) :
    (s.updateVis name).firstKey = s.firstKey := by
  cases s <;> rfl

theorem activeInv_mk_updateVis (nm : String) (props : List (String × Field))
    (s : Subs) (name : String) (combo sel : Option String) (vis : Bool) :
    (Node.mk nm props (s.updateVis name) combo sel vis).activeInv
      = (Node.mk nm props s combo sel vis).activeInv := by
  simp only [Node.activeInv, updateVis_isNil, updateVis_nodupKeys,
    updateVis_countKey, updateVis_activeInvAll]

theorem activeInv_updateSubwidgets (n : Node) (name : String)
    (h : n.activeInv = true) : (updateSubwidgets n name).activeInv = true := by
  cases n with
  | mk nm props subs combo sel vis =>
    simp only [updateSubwidgets]
    rw [activeInv_mk_updateVis]
    by_cases hkey : subs.hasKey name = true
    · simp only [hkey, if_true]
      simp only [Node.activeInv, Bool.and_eq_true, Bool.or_eq_true] at h ⊢
      refine ⟨?_, h.2⟩
      rcases h.1 with hnil | hrest
      · cases subs with
        | nil => simp [Subs.hasKey] at hkey
        | cons k c t => simp [Subs.isNil] at hnil
      · right
        have hd := hrest.1
        refine ⟨hd, ?_⟩
        simp [countKey_eq_one_of_nodup_hasKey _ _ hd hkey]
    · simp only [Bool.not_eq_true] at hkey
      simp only [hkey, if_false]
      simp only [Node.activeInv, Bool.and_eq_true, Bool.or_eq_true] at h ⊢
      exact h

/-! ### `modifyAt` only touches the subtree at its path -/

theorem modifyAtS_isNil (s : Subs) (k : String) (ks : List String)
    (f : Node → Node) : (Subs.modifyAtS s k ks f).isNil = s.isNil := by
  cases s with
  | nil => rfl
  | cons k0 c t =>
    by_cases hk : k0 = k <;> simp [Subs.modifyAtS, hk, Subs.isNil]

theorem modifyAtS_hasKey (s : Subs) (k : String) (ks : List String)
    (f : Node → Node) (key : String) :
    (Subs.modifyAtS s k ks f).hasKey key = s.hasKey key := by
  induction s using subsInduction with
  | nil => rfl
  | cons k0 c t ih =>
    by_cases hk : k0 = k <;> simp [Subs.modifyAtS, hk, Subs.hasKey, ih]

theorem modifyAtS_countKey (s : Subs) (k : String) (ks : List String)
    (f : Node → Node) (key : String) :
    (Subs.modifyAtS s k ks f).countKey key = s.countKey key := by
  induction s using subsInduction with
  | nil => rfl
  | cons k0 c t ih =>
    by_cases hk : k0 = k <;> simp [Subs.modifyAtS, hk, Subs.countKey, ih]

theorem modifyAtS_nodupKeys (s : Subs) (k : String) (ks : List String)
    (f : Node → Node) :
    (Subs.modifyAtS s k ks f).nodupKeys = s.nodupKeys := by
  induction s using subsInduction with
  | nil => rfl
  | cons k0 c t ih =>
    by_cases hk : k0 = k <;>
      simp [Subs.modifyAtS, hk, Subs.nodupKeys, modifyAtS_hasKey, ih]

theorem activeInv_modifyAt (f : Node → Node)
    (hf : ∀ m, m.activeInv = true → (f m).activeInv = true) :
    ∀ n : Node, ∀ path : List String,
      n.activeInv = true → (n.modifyAt path f).activeInv = true := by
  refine nodeMutualInd
    (P := fun n => ∀ path : List String,
      n.activeInv = true → (n.modifyAt path f).activeInv = true)
    (Q := fun s => ∀ (k : String) (ks : List String),
      s.activeInvAll = true → (Subs.modifyAtS s k ks f).activeInvAll = true)
    ?_ ?_ ?_
  · intro nm props subs combo sel vis hq path h
    cases path with
    | nil => exact hf _ h
    | cons k ks =>
      simp only [Node.modifyAt]
      simp only [Node.activeInv, modifyAtS_isNil, modifyAtS_nodupKeys,
        modifyAtS_countKey, Bool.and_eq_true] at h ⊢
      exact ⟨h.1, hq k ks h.2⟩
  · intro k ks h
    exact h
  · intro k0 c t hc ht k ks h
    simp only [Subs.activeInvAll, Bool.and_eq_true] at h
    by_cases hk : k0 = k
    · simp only [Subs.modifyAtS, if_pos hk, Subs.activeInvAll, Bool.and_eq_true]
      exact ⟨hc ks h.1, h.2⟩
    · simp only [Subs.modifyAtS, if_neg hk, Subs.activeInvAll, Bool.and_eq_true]
      exact ⟨h.1, ht k ks h.2⟩

/-! ### The combo synchronisation invariant is preserved by the program's
selection events and field edits -/

theorem syncInv_mk_updateVis (nm : String) (props : List (String × Field))
    (s : Subs) (name : String) (combo sel : Option String) (vis : Bool) :
    (Node.mk nm props (s.updateVis name) combo sel vis).syncInv
      = (Node.mk nm props s combo sel vis).syncInv := by
  simp only [Node.syncInv, updateVis_isNil, updateVis_hasKey,
    updateVis_syncInvAll]

theorem syncInv_userSelect (n : Node) (name : String)
    (h : n.syncInv = true) : (userSelect n name).syncInv = true := by
  cases n with
  | mk nm props subs combo sel vis =>
    cases combo with
    | none => simpa [userSelect] using h
    | some t =>
      by_cases hkey : subs.hasKey name = true
      · by_cases ht : t = name
        · simpa [userSelect, hkey, ht] using h
        · simp only [userSelect, hkey, if_true, if_neg ht, updateSubwidgets,
            if_pos hkey]
          rw [syncInv_mk_updateVis]
          simp only [Node.syncInv, Bool.and_eq_true, Bool.or_eq_true] at h ⊢
          refine ⟨Or.inr ?_, h.2⟩
          simp [hkey]
      · simp only [Bool.not_eq_true] at hkey
        simpa [userSelect, hkey] using h

theorem syncInv_setFieldRaw (n : Node) (fname v : String) :
    (n.setFieldRaw fname v).syncInv = n.syncInv := by
  cases n with
  | mk nm props subs combo sel vis => rfl

theorem activeInv_setFieldRaw (n : Node) (fname v : String) :
    (n.setFieldRaw fname v).activeInv = n.activeInv := by
  cases n with
  | mk nm props subs combo sel vis => rfl

theorem syncInv_modifyAt (f : Node → Node)
    (hf : ∀ m, m.syncInv = true → (f m).syncInv = true) :
    ∀ n : Node, ∀ path : List String,
      n.syncInv = true → (n.modifyAt path f).syncInv = true := by
  refine nodeMutualInd
    (P := fun n => ∀ path : List String,
      n.syncInv = true → (n.modifyAt path f).syncInv = true)
    (Q := fun s => ∀ (k : String) (ks : List String),
      s.syncInvAll = true → (Subs.modifyAtS s k ks f).syncInvAll = true)
    ?_ ?_ ?_
  · intro nm props subs combo sel vis hq path h
    cases path with
    | nil => exact hf _ h
    | cons k ks =>
      simp only [Node.modifyAt]
      simp only [Node.syncInv, modifyAtS_isNil, modifyAtS_hasKey,
        Bool.and_eq_true] at h ⊢
      exact ⟨h.1, hq k ks h.2⟩
  · intro k ks h
    exact h
  · intro k0 c t hc ht k ks h
    simp only [Subs.syncInvAll, Bool.and_eq_true] at h
    by_cases hk : k0 = k
    · simp only [Subs.modifyAtS, if_pos hk, Subs.syncInvAll, Bool.and_eq_true]
      exact ⟨hc ks h.1, h.2⟩
    · simp only [Subs.modifyAtS, if_neg hk, Subs.syncInvAll, Bool.and_eq_true]
      exact ⟨h.1, ht k ks h.2⟩

/-! ### A successful build establishes all three invariants -/

theorem setVisible_firstSel (n : Node) (b : Bool) :
    (n.setVisible b).firstSel = n.firstSel := by
  cases n with
  | mk nm props subs combo sel vis => rfl

theorem updateVis_firstSelAll (s : Subs) (name : String) :
    (s.updateVis name).firstSelAll = s.firstSelAll := by
  induction s using subsInduction with
  | nil => rfl
  | cons k c t ih =>
    simp [Subs.updateVis, Subs.firstSelAll, setVisible_firstSel, ih]

/-- A node is well-formed when all three recursive invariants hold. -/
def goodN (n : Node) : Bool := n.activeInv && n.syncInv && n.firstSel

/-- All entries of a `_subwidgets` dict are well-formed. -/
def goodAllS (s : Subs) : Bool :=
  s.activeInvAll && s.syncInvAll && s.firstSelAll

theorem hasKey_dictInsertS (s : Subs) (k : String) (v : Node) (key : String) :
    (s.dictInsertS k v).hasKey key = (s.hasKey key || key == k) := by
  induction s using subsInduction with
  | nil =>
    by_cases hk : k = key
    · subst hk
      simp [Subs.dictInsertS, Subs.hasKey]
    · have hne : (key == k) = false := beq_eq_false_iff_ne.mpr (fun h => hk h.symm)
      simp [Subs.dictInsertS, Subs.hasKey, hk, hne]
  | cons k0 c0 t ih =>
    by_cases h0 : k0 = k
    · subst h0
      simp only [Subs.dictInsertS, if_pos rfl]
      by_cases hk : k0 = key
      · simp [Subs.hasKey, hk]
      · have hne : (key == k0) = false := beq_eq_false_iff_ne.mpr (fun h => hk h.symm)
        simp [Subs.hasKey, hk, hne]
    · simp only [Subs.dictInsertS, if_neg h0]
      by_cases hk : k0 = key
      · simp [Subs.hasKey, hk]
      · simp [Subs.hasKey, hk, ih]

theorem nodupKeys_dictInsertS (s : Subs) (k : String) (v : Node)
    (h : s.nodupKeys = true) : (s.dictInsertS k v).nodupKeys = true := by
  induction s using subsInduction with
  | nil => simp [Subs.dictInsertS, Subs.nodupKeys, Subs.hasKey]
  | cons k0 c0 t ih =>
    simp only [Subs.nodupKeys, Bool.and_eq_true, Bool.not_eq_true'] at h
    by_cases h0 : k0 = k
    · subst h0
      simp only [Subs.dictInsertS, if_pos rfl, Subs.nodupKeys,
        Bool.and_eq_true, Bool.not_eq_true']
      exact ⟨h.1, h.2⟩
    · have hne : (k0 == k) = false := beq_eq_false_iff_ne.mpr h0
      simp only [Subs.dictInsertS, if_neg h0, Subs.nodupKeys,
        hasKey_dictInsertS, h.1, hne, Bool.or_self, Bool.not_false,
        Bool.true_and, Bool.and_eq_true, Bool.not_eq_true']
      exact ih h.2

theorem goodAllS_dictInsertS (s : Subs) (k : String) (v : Node)
    (hs : goodAllS s = true) (hv : goodN v = true) :
    goodAllS (s.dictInsertS k v) = true := by
  induction s using subsInduction with
  | nil =>
    simp only [goodN, Bool.and_eq_true] at hv
    simp [Subs.dictInsertS, goodAllS, Subs.activeInvAll, Subs.syncInvAll,
      Subs.firstSelAll, hv.1.1, hv.1.2, hv.2]
  | cons k0 c0 t ih =>
    simp only [goodAllS, Subs.activeInvAll, Subs.syncInvAll, Subs.firstSelAll,
      Bool.and_eq_true] at hs
    by_cases h0 : k0 = k
    · simp only [goodN, Bool.and_eq_true] at hv
      simp only [Subs.dictInsertS, if_pos h0, goodAllS, Subs.activeInvAll,
        Subs.syncInvAll, Subs.firstSelAll, Bool.and_eq_true]
      exact ⟨⟨⟨hv.1.1, hs.1.1.2⟩, hv.1.2, hs.1.2.2⟩, hv.2, hs.2.2⟩
    · have ht : goodAllS t = true := by
        simp [goodAllS, hs.1.1.2, hs.1.2.2, hs.2.2]
      have := ih ht
      simp only [goodAllS, Bool.and_eq_true] at this
      simp only [Subs.dictInsertS, if_neg h0, goodAllS, Subs.activeInvAll,
        Subs.syncInvAll, Subs.firstSelAll, Bool.and_eq_true]
      exact ⟨⟨⟨hs.1.1.1, this.1.1⟩, hs.1.2.1, this.1.2⟩, hs.2.1, this.2⟩

/-- Build soundness: a successful `AdaptiveTreeNode.__init__` establishes,
for every node of the produced tree, the "exactly one active child"
invariant, the combo synchronisation invariant, and "the first child is
the selected one". -/
theorem build_inv (s : Schema) (n : Node) (hb : buildNode s = .ok n) :
    n.activeInv = true ∧ n.syncInv = true ∧ n.firstSel = true := by
  have main : ∀ t : Schema, ∀ m : Node, buildNode t = .ok m → goodN m = true := by
    refine schemaMutualInd
      (P := fun t => ∀ m : Node, buildNode t = .ok m → goodN m = true)
      (Q := fun l => ∀ acc res : Subs,
        goodAllS acc = true → acc.nodupKeys = true →
        buildSubsGo l acc = .ok res →
        goodAllS res = true ∧ res.nodupKeys = true)
      ?_ ?_ ?_
    · intro nameOpt propsOpt subsOpt hq m hm
      cases nameOpt with
      | none => simp [buildNode] at hm
      | some nm =>
        rw [buildNode] at hm
        cases hsub : buildSubsOpt subsOpt with
        | error e => rw [hsub] at hm; exact absurd hm (by simp [Except.bind])
        | ok subs =>
          rw [hsub] at hm
          cases hp : buildPropsOpt propsOpt with
          | error e => rw [hp] at hm; exact absurd hm (by simp [Except.bind])
          | ok props =>
            rw [hp] at hm
            simp only [Except.bind] at hm
            cases hm
            have hgood : goodAllS subs = true ∧ subs.nodupKeys = true := by
              cases subsOpt with
              | none =>
                simp only [buildSubsOpt] at hsub
                cases hsub
                exact ⟨rfl, rfl⟩
              | some l =>
                simp only [buildSubsOpt] at hsub
                exact hq l rfl Subs.nil subs rfl rfl hsub
            cases subs with
            | nil =>
              simp [goodN, finishBuild, Node.activeInv, Node.syncInv,
                Node.firstSel, Subs.isNil, Subs.activeInvAll, Subs.syncInvAll,
                Subs.firstSelAll, Subs.firstKey]
            | cons k c0 t0 =>
              have hkey : (Subs.cons k c0 t0).hasKey k = true := by
                simp [Subs.hasKey]
              simp only [goodAllS, Subs.activeInvAll, Subs.syncInvAll,
                Subs.firstSelAll, Bool.and_eq_true] at hgood
              simp only [goodN, finishBuild, updateSubwidgets, if_pos hkey,
                Bool.and_eq_true]
              rw [activeInv_mk_updateVis, syncInv_mk_updateVis]
              constructor
              constructor
              · simp only [Node.activeInv, Bool.and_eq_true, Bool.or_eq_true]
                refine ⟨Or.inr ⟨hgood.2, ?_⟩, ?_⟩
                · simp [countKey_eq_one_of_nodup_hasKey _ _ hgood.2 hkey]
                · simp [Subs.activeInvAll, hgood.1.1.1.1, hgood.1.1.1.2]
              · simp only [Node.syncInv, Bool.and_eq_true, Bool.or_eq_true]
                refine ⟨Or.inr ?_, ?_⟩
                · simp [hkey]
                · simp [Subs.syncInvAll, hgood.1.1.2.1, hgood.1.1.2.2]
              · simp only [Node.firstSel, updateVis_firstKey,
                  updateVis_firstSelAll, Bool.and_eq_true]
                refine ⟨?_, ?_⟩
                · simp [Subs.firstKey]
                · simp [Subs.firstSelAll, hgood.1.2.1, hgood.1.2.2]
    · intro acc res hg hd hb0
      cases hb0
      exact ⟨hg, hd⟩
    · intro sh t hp hq acc res hg hd hb0
      revert hb0
      simp only [buildSubsGo]
      cases hc : buildNode sh with
      | error e => intro hb0; cases hb0
      | ok c =>
        intro hb0
        exact hq (acc.dictInsertS c.name c) res
          (goodAllS_dictInsertS acc c.name c hg (hp c hc))
          (nodupKeys_dictInsertS acc c.name c hd) hb0
  have hmm2 := main s n hb
  simp only [goodN, Bool.and_eq_true] at hmm2
  exact ⟨hmm2.1.1, hmm2.1.2, hmm2.2⟩

/-! ### Selection never touches field values (frame lemmas) -/

theorem allRawValues_updateSubwidgets (n : Node) (name : String) :
    (updateSubwidgets n name).allRawValues = n.allRawValues := by
  cases n with
  | mk nm props subs combo sel vis =>
    simp [updateSubwidgets, Node.allRawValues, updateVis_allRawValuesS]

theorem allRawValues_userSelect (n : Node) (name : String) :
    (userSelect n name).allRawValues = n.allRawValues := by
  cases n with
  | mk nm props subs combo sel vis =>
    cases combo with
    | none => rfl
    | some t =>
      by_cases hkey : subs.hasKey name = true
      · by_cases ht : t = name
        · simp [userSelect, hkey, ht]
        · simp only [userSelect, hkey, if_true, if_neg ht]
          rw [allRawValues_updateSubwidgets]
          rfl
      · simp only [Bool.not_eq_true] at hkey
        simp [userSelect, hkey]

theorem allRawValues_modifyAt (f : Node → Node)
    (hf : ∀ m, (f m).allRawValues = m.allRawValues) :
    ∀ n : Node, ∀ path : List String,
      (n.modifyAt path f).allRawValues = n.allRawValues := by
  refine nodeMutualInd
    (P := fun n => ∀ path : List String,
      (n.modifyAt path f).allRawValues = n.allRawValues)
    (Q := fun s => ∀ (k : String) (ks : List String),
      (Subs.modifyAtS s k ks f).allRawValuesS = s.allRawValuesS)
    ?_ ?_ ?_
  · intro nm props subs combo sel vis hq path
    cases path with
    | nil => exact hf _
    | cons k ks =>
      simp [Node.modifyAt, Node.allRawValues, hq k ks]
  · intro k ks
    rfl
  · intro k0 c t hc ht k ks
    by_cases hk : k0 = k
    · simp [Subs.modifyAtS, hk, Subs.allRawValuesS, hc]
    · simp [Subs.modifyAtS, hk, Subs.allRawValuesS, ht]

/-! ### A rejected `update_subwidgets` call leaves `data` unchanged -/

theorem data_updateSubwidgets_unknown (n : Node) (name : String)
    (h : n.subs.hasKey name = false) :
    ∀ flag : Bool, (updateSubwidgets n name).data flag = n.data flag := by
  intro flag
  cases n with
  | mk nm props subs combo sel vis =>
    simp only [Node.subs] at h
    cases flag with
    | true =>
      simp only [updateSubwidgets, h, if_false, Node.data, updateVis_isNil]
      cases sel with
      | none => rfl
      | some k => simp [updateVis_dataOf]
    | false =>
      simp only [updateSubwidgets, h, if_false, Node.data]
      cases combo with
      | none => rfl
      | some t => simp [updateVis_dataOf]

/-- Every state the running program can produce satisfies the combo
synchronisation invariant. -/
theorem reach_syncInv (n : Node) (h : Reach n) : n.syncInv = true := by
  induction h with
  | built s n hb => exact (build_inv s n hb).2.1
  | select n path name _ ih =>
    exact syncInv_modifyAt _ (fun m hm => syncInv_userSelect m name hm) n path ih
  | edit n path fname v _ ih =>
    exact syncInv_modifyAt _ (fun m hm => (syncInv_setFieldRaw m fname v).symm ▸ hm)
      n path ih


/-! ### Split/join round trip (multi-line text fields) -/

/-- Character-level version of `pyJoinS`. -/
def pyJoinCh (sep : List Char) : List (List Char) → List Char
  | [] => []
  | [x] => x
  | x :: y :: xs => x ++ sep ++ pyJoinCh sep (y :: xs)

theorem data_pyJoinS (sep : String) : ∀ L : List String,
    (pyJoinS sep L).data = pyJoinCh sep.data (L.map String.data)
  | [] => rfl
  | [x] => rfl
  | x :: y :: xs => by
    simp only [pyJoinS, pyJoinCh, List.map, String.data_append]
    rw [data_pyJoinS sep (y :: xs)]
    simp [pyJoinCh, List.append_assoc]

theorem pySplitCh_ne_nil (sep : Char) : ∀ cs : List Char,
    pySplitCh sep cs ≠ []
  | [] => by simp [pySplitCh]
  | c :: rest => by
    by_cases hc : c = sep
    · simp [pySplitCh, hc]
    · simp only [pySplitCh, if_neg hc]
      cases h : pySplitCh sep rest <;> simp

theorem pySplitCh_not_mem (sep : Char) : ∀ cs : List Char, sep ∉ cs →
    pySplitCh sep cs = [cs]
  | [], _ => rfl
  | c :: rest, h => by
    have hc : ¬c = sep := fun hh => h (hh ▸ List.mem_cons_self c rest)
    have hrest : sep ∉ rest := fun hh => h (List.mem_cons_of_mem c hh)
    simp only [pySplitCh, if_neg hc, pySplitCh_not_mem sep rest hrest]

theorem pySplitCh_append_cons (sep : Char) :
    ∀ xs ys : List Char, sep ∉ xs →
    pySplitCh sep (xs ++ sep :: ys) = xs :: pySplitCh sep ys
  | [], ys, _ => by simp [pySplitCh]
  | x :: xs, ys, h => by
    have hx : ¬x = sep := fun hh => h (hh ▸ List.mem_cons_self x xs)
    have hxs : sep ∉ xs := fun hh => h (List.mem_cons_of_mem x hh)
    simp only [List.cons_append, pySplitCh, if_neg hx, List.append_eq,
      pySplitCh_append_cons sep xs ys hxs]

theorem pySplitCh_pyJoinCh (sep : Char) :
    ∀ Lc : List (List Char), Lc ≠ [] → (∀ l ∈ Lc, sep ∉ l) →
    pySplitCh sep (pyJoinCh [sep] Lc) = Lc
  | [], h, _ => absurd rfl h
  | [x], _, hmem =>
    pySplitCh_not_mem sep x (hmem x (List.mem_singleton_self x))
  | x :: y :: xs, _, hmem => by
    have hx : sep ∉ x := hmem x (List.mem_cons_self x (y :: xs))
    have hrest : ∀ l ∈ y :: xs, sep ∉ l :=
      fun l hl => hmem l (List.mem_cons_of_mem x hl)
    have hne : (y :: xs : List (List Char)) ≠ [] := by simp
    simp only [pyJoinCh, List.append_assoc, List.singleton_append]
    rw [pySplitCh_append_cons sep x _ hx,
      pySplitCh_pyJoinCh sep (y :: xs) hne hrest]

theorem map_mk_data : ∀ L : List String,
    (L.map String.data).map String.mk = L
  | [] => rfl
  | x :: xs => by
    cases x with
    | mk d => simp only [List.map, map_mk_data xs]

theorem pySplitCh_length (sep : Char) : ∀ cs : List Char,
    (pySplitCh sep cs).length = cs.count sep + 1
  | [] => rfl
  | c :: rest => by
    by_cases hc : c = sep
    · subst hc
      simp [pySplitCh, List.count_cons, pySplitCh_length c rest]
    · simp only [pySplitCh, if_neg hc]
      cases h : pySplitCh sep rest with
      | nil => exact absurd h (pySplitCh_ne_nil sep rest)
      | cons l ls =>
        have := pySplitCh_length sep rest
        rw [h] at this
        simp only [List.length_cons] at this ⊢
        rw [List.count_cons]
        simp [hc, fun hh : sep = c => hc hh.symm, this]


/-! ### Concrete example data (spec §8, Scenario 1 and the docstring) -/

/-- The `"Issue"` fragment of the constructor docstring / spec Scenario 1. -/
def scIssue : Schema :=
  .mk (some "Issue") (some [⟨some "issue_number", some "LineEdit"⟩]) none

/-- Scenario 1 schema, with the root fragment given an (empty) name. -/
def sc1 : Schema := .mk (some "") none (some (.cons scIssue .nil))

/-- The tree `buildNode sc1` produces. -/
def r1 : Node :=
  .mk "" []
    (.cons "Issue"
      (.mk "Issue"
        [("issue_number", ⟨"issue_number", .lineEditField, ""⟩)]
        .nil none none true)
      .nil)
    (some "Issue") (some "Issue") false

theorem r1_built : buildNode sc1 = .ok r1 := rfl

/-- A two-children branch point with child `"a"` active and shown. -/
def exC4 : Node :=
  .mk "root" []
    (.cons "a" (.mk "a" [] .nil none none true)
      (.cons "b" (.mk "b" [] .nil none none false) .nil))
    (some "a") (some "a") true

/-- A schema whose root is invalid: a property names the unregistered
field kind `"Bogus"`. -/
def badKindSchema : Schema :=
  .mk (some "") (some [⟨some "x", some "Bogus"⟩]) none

/-- Branch point `"N"` with children `"A"` (one line-edit field `"f"`) and
`"B"`. -/
def c6Schema : Schema :=
  .mk (some "") none
    (some (.cons
      (.mk (some "N") none
        (some (.cons (.mk (some "A") (some [⟨some "f", some "LineEdit"⟩]) none)
          (.cons (.mk (some "B") none none) .nil))))
      .nil))

/-- The tree `buildNode c6Schema` produces. -/
def c6Root : Node :=
  .mk "" []
    (.cons "N"
      (.mk "N" []
        (.cons "A"
          (.mk "A" [("f", ⟨"f", .lineEditField, ""⟩)] .nil none none true)
          (.cons "B" (.mk "B" [] .nil none none false) .nil))
        (some "A") (some "A") true)
      .nil)
    (some "N") (some "N") false

theorem c6Root_built : buildNode c6Schema = .ok c6Root := rfl

/-- The state-retention scenario of spec §8: select `"A"` at node `"N"`,
type `v` into field `"f"` of subtree `"A"`, select `"B"`, reselect
`"A"`. -/
def c6Final (v : String) : Node :=
  ((((c6Root.modifyAt ["N"] (fun m => userSelect m "A")).modifyAt ["N", "A"]
      (fun m => m.setFieldRaw "f" v)).modifyAt ["N"]
      (fun m => userSelect m "B")).modifyAt ["N"]
      (fun m => userSelect m "A"))

/-- The error of the spec's `select_child` contract (§4.3/§7). -/
inductive SelectError where
  | unknownChild
deriving DecidableEq, Repr

/-- Modelled from the spec (§4.3): `select_child(name)` "sets
`active_child` to the child registered under `name`; fails with
`UnknownChild` if no such child exists", the call being rejected with the
state unchanged.  This definition follows the spec's words; the source's
`update_subwidgets` is compared against it. -/
def select_child_spec (n : Node) (name : String) : Except SelectError Node :=
  if n.subs.hasKey name then
    .ok (.mk n.name n.props n.subs n.comboText (some name) n.visible)
  else
    .error .unknownChild

/-! ### Claim theorems -/

/-- C1: for every loaded tree (a built tree further transformed only by
the program's selection events and field edits) whose root has a non-empty
children mapping, the root's `data()` equals exactly the `data()` of the
root's currently active child, and is independent of the root's own name
and fields. -/
theorem root_data_eq_active_child (n : Node) (hr : Reach n)
    (hne : n.subs.isNil = false) :
    ∃ k c, n.selected = some k ∧ n.subs.lookup k = some c ∧
      n.data false = c.data true ∧
      (∀ (nm2 : String) (props2 : List (String × Field)),
        (Node.mk nm2 props2 n.subs n.comboText n.selected n.visible).data false
          = n.data false) := by
  have hs := reach_syncInv n hr
  cases n with
  | mk nm props subs combo sel vis =>
    simp only [Node.subs] at hne
    simp only [Node.syncInv, Bool.and_eq_true, Bool.or_eq_true] at hs
    rcases hs.1 with hnil | hsync
    · simp [hnil] at hne
    · cases combo with
      | none => simp at hsync
      | some a =>
        cases sel with
        | none => simp at hsync
        | some b =>
          simp only [Bool.and_eq_true, beq_iff_eq] at hsync
          obtain ⟨hab, hkey⟩ := hsync
          subst hab
          obtain ⟨c, hc⟩ := Option.isSome_iff_exists.mp
            (lookup_isSome_of_hasKey subs a hkey)
          refine ⟨a, c, rfl, hc, ?_, fun nm2 props2 => rfl⟩
          simp only [Node.data]
          exact dataOf_eq_of_lookup subs a c hc

theorem root_data_eq_active_child_witness :
    ∃ k c, r1.selected = some k ∧ r1.subs.lookup k = some c ∧
      r1.data false = c.data true ∧
      (∀ (nm2 : String) (props2 : List (String × Field)),
        (Node.mk nm2 props2 r1.subs r1.comboText r1.selected r1.visible).data
            false = r1.data false) :=
  root_data_eq_active_child r1 (Reach.built sc1 r1 rfl) rfl

/-- C2: a non-root node's `data()` is its name, then (when fields exist) a
space and the comma-joined field values in insertion order, then (when
children exist) a space and the active child's `data()`; a node with no
fields and no children yields exactly its name (even the empty one). -/
theorem nonroot_data_formula (nm : String) (props : List (String × Field))
    (subs : Subs) (combo sel : Option String) (vis : Bool)
    (vs : List String) (hf : fieldsData props = some vs) :
    (subs.isNil = true →
      (Node.mk nm props subs combo sel vis).data true
        = some (if props.isEmpty then nm else nm ++ " " ++ pyJoinS ", " vs)) ∧
    (∀ k c d, sel = some k → subs.lookup k = some c → c.data true = some d →
      (Node.mk nm props subs combo sel vis).data true
        = some ((if props.isEmpty then nm else nm ++ " " ++ pyJoinS ", " vs)
            ++ " " ++ d)) ∧
    (props = [] → subs = .nil →
      (Node.mk nm props subs combo sel vis).data true = some nm) := by
  have hstep : dataStep1 nm props
      = some (if props.isEmpty then nm else nm ++ " " ++ pyJoinS ", " vs) := by
    by_cases hp : props.isEmpty <;> simp [dataStep1, hp, hf]
  refine ⟨?_, ?_, ?_⟩
  · intro hnil
    simp [Node.data, hnil, hstep]
  · intro k c d hsel hlk hd
    subst hsel
    have hnil : subs.isNil = false := by
      cases subs with
      | nil => simp [Subs.lookup] at hlk
      | cons k0 c0 t0 => rfl
    have hdo : subs.dataOf k = some d := by
      rw [dataOf_eq_of_lookup subs k c hlk, hd]
    simp [Node.data, hnil, hstep, hdo, mergeParts]
  · intro hp hs
    subst hp
    subst hs
    simp [Node.data, dataStep1, Subs.isNil]

theorem nonroot_data_formula_witness :
    ((Subs.nil : Subs).isNil = true →
      (Node.mk "Issue"
          [("issue_number", ⟨"issue_number", .lineEditField, "42"⟩)]
          .nil none none true).data true
        = some (if [("issue_number",
            (⟨"issue_number", .lineEditField, "42"⟩ : Field))].isEmpty
            then "Issue" else "Issue" ++ " " ++ pyJoinS ", " ["42"])) ∧
    (∀ k c d, (none : Option String) = some k →
      (Subs.nil : Subs).lookup k = some c → c.data true = some d →
      (Node.mk "Issue"
          [("issue_number", ⟨"issue_number", .lineEditField, "42"⟩)]
          .nil none none true).data true
        = some ((if [("issue_number",
            (⟨"issue_number", .lineEditField, "42"⟩ : Field))].isEmpty
            then "Issue" else "Issue" ++ " " ++ pyJoinS ", " ["42"])
            ++ " " ++ d)) ∧
    ([("issue_number",
        (⟨"issue_number", .lineEditField, "42"⟩ : Field))] = [] →
      (Subs.nil : Subs) = .nil →
      (Node.mk "Issue"
          [("issue_number", ⟨"issue_number", .lineEditField, "42"⟩)]
          .nil none none true).data true = some "Issue") :=
  nonroot_data_formula "Issue"
    [("issue_number", ⟨"issue_number", .lineEditField, "42"⟩)]
    .nil none none true ["42"] rfl

/-- C3: every built node with children has exactly one active child (the
first child in dict iteration order), and the invariant survives every
`update_subwidgets` call on any node of the tree, including calls whose
name matches no child. -/
theorem exactly_one_active :
    (∀ (s : Schema) (n : Node), buildNode s = .ok n →
      n.activeInv = true ∧ n.firstSel = true) ∧
    (∀ (n : Node) (path : List String) (name : String),
      n.activeInv = true →
      (n.modifyAt path (fun m => updateSubwidgets m name)).activeInv
        = true) := by
  constructor
  · intro s n hb
    exact ⟨(build_inv s n hb).1, (build_inv s n hb).2.2⟩
  · intro n path name h
    exact activeInv_modifyAt _
      (fun m hm => activeInv_updateSubwidgets m name hm) n path h

theorem exactly_one_active_witness :
    (r1.activeInv = true ∧ r1.firstSel = true) ∧
    (r1.modifyAt [] (fun m => updateSubwidgets m "missing")).activeInv
      = true :=
  ⟨exactly_one_active.1 sc1 r1 rfl,
    exactly_one_active.2 r1 [] "missing"
      (exactly_one_active.1 sc1 r1 rfl).1⟩

/-- C4 (counterexample): at a concrete branch point and an unknown name,
the spec's `select_child` rejects the call with `UnknownChild`, but the
source's `update_subwidgets` returns normally — no error is raised — with
`_selected_widget` unchanged and every child hidden (a visible-state
change, so the node is not left untouched either). -/
theorem select_child_unknown_cex :
    select_child_spec exC4 "missing" = .error .unknownChild ∧
    updateSubwidgets exC4 "missing"
      = .mk "root" []
          (.cons "a" (.mk "a" [] .nil none none false)
            (.cons "b" (.mk "b" [] .nil none none false) .nil))
          (some "a") (some "a") true ∧
    (updateSubwidgets exC4 "missing").selected = exC4.selected ∧
    updateSubwidgets exC4 "missing" ≠ exC4 := by
  refine ⟨rfl, rfl, rfl, ?_⟩
  decide

/-- C4 (amended): calling `update_subwidgets` with a name that is not a
key of `_subwidgets` raises no error; it leaves `_selected_widget` — and
hence every subsequent `data()` — unchanged, while hiding every child. -/
theorem select_child_unknown_silent (n : Node) (name : String)
    (h : n.subs.hasKey name = false) :
    (updateSubwidgets n name).selected = n.selected ∧
    (∀ flag : Bool, (updateSubwidgets n name).data flag = n.data flag) ∧
    (updateSubwidgets n name).subs.allHidden = true := by
  refine ⟨?_, data_updateSubwidgets_unknown n name h, ?_⟩
  · cases n with
    | mk nm props subs combo sel vis =>
      simp only [Node.subs] at h
      simp [updateSubwidgets, h, Node.selected]
  · cases n with
    | mk nm props subs combo sel vis =>
      simp only [Node.subs] at h
      simp [updateSubwidgets, Node.subs, updateVis_allHidden subs name h]

theorem select_child_unknown_silent_witness :
    (updateSubwidgets exC4 "missing").selected = exC4.selected ∧
    (∀ flag : Bool,
      (updateSubwidgets exC4 "missing").data flag = exC4.data flag) ∧
    (updateSubwidgets exC4 "missing").subs.allHidden = true :=
  select_child_unknown_silent exC4 "missing" rfl

/-- C5: whenever `load_from_file` reports an error — the resource failed
to parse, or the build raised (`UnknownFieldKind`, missing `"name"` key) —
the form is left exactly as it was: its root (and therefore its `data()`
output) still reflects the previous session. -/
theorem load_failure_atomic (form : AdaptiveTreeForm)
    (parsed : Except LoadError Schema) (f2 : AdaptiveTreeForm)
    (e : LoadError) (h : form.load_from_file parsed = (f2, some e)) :
    f2 = form ∧ f2.data = form.data := by
  cases parsed with
  | error e0 =>
    simp only [AdaptiveTreeForm.load_from_file] at h
    injection h with h1 h2
    exact ⟨h1.symm, congrArg AdaptiveTreeForm.data h1.symm⟩
  | ok tree =>
    simp only [AdaptiveTreeForm.load_from_file] at h
    cases hb : buildNode tree with
    | error e0 =>
      rw [hb] at h
      injection h with h1 h2
      exact ⟨h1.symm, congrArg AdaptiveTreeForm.data h1.symm⟩
    | ok root =>
      rw [hb] at h
      injection h with h1 h2
      cases h2

theorem load_failure_atomic_witness :
    (AdaptiveTreeForm.mk (some r1)) = AdaptiveTreeForm.mk (some r1) ∧
    (AdaptiveTreeForm.mk (some r1)).data
      = (AdaptiveTreeForm.mk (some r1)).data :=
  load_failure_atomic (AdaptiveTreeForm.mk (some r1)) (.ok badKindSchema)
    (AdaptiveTreeForm.mk (some r1)) .unknownFieldKind rfl

/-- C6: a selection event (or any `update_subwidgets` call) anywhere in
the tree changes no field raw value; and in the concrete §8 scenario —
select `"A"`, type `v` into `"A"`'s field, select `"B"`, reselect `"A"` —
the final output contains `v` exactly as entered. -/
theorem select_preserves_field_values :
    (∀ (n : Node) (path : List String) (name : String),
      (n.modifyAt path (fun m => userSelect m name)).allRawValues
          = n.allRawValues ∧
      (n.modifyAt path (fun m => updateSubwidgets m name)).allRawValues
          = n.allRawValues) ∧
    (∀ v : String, ∃ p q : String,
      (c6Final v).data false = some (p ++ v ++ q)) := by
  constructor
  · intro n path name
    exact ⟨allRawValues_modifyAt _ (fun m => allRawValues_userSelect m name)
        n path,
      allRawValues_modifyAt _ (fun m => allRawValues_updateSubwidgets m name)
        n path⟩
  · intro v
    refine ⟨"N " ++ "A ", "", ?_⟩
    have h1 : (c6Final v).data false = some ("N " ++ ("A " ++ v)) := rfl
    rw [h1, String.append_empty, String.append_assoc]

/-- C7: the value of a multi-line text field is the lines of its raw input
joined with `", "` (splitting inverts joining when no line contains a
newline), and splitting always yields one more piece than there are
newline characters — `n` newline-separated lines give exactly `n`
pieces. -/
theorem multiline_value (L : List String) (hne : L ≠ [])
    (hmem : ∀ l ∈ L, ¬ ('\n' ∈ l.data)) :
    multipleTextEditData (pyJoinS "\n" L) = pyJoinS ", " L ∧
    (∀ cs : List Char,
      (pySplitCh '\n' cs).length = cs.count '\n' + 1) := by
  constructor
  · have hd : (("\n" : String)).data = ['\n'] := rfl
    have hmapne : L.map String.data ≠ [] := by
      cases L with
      | nil => exact absurd rfl hne
      | cons a as => simp
    have hmapmem : ∀ l ∈ L.map String.data, '\n' ∉ l := by
      intro l hl
      rcases List.mem_map.mp hl with ⟨x, hx, rfl⟩
      exact hmem x hx
    unfold multipleTextEditData
    rw [data_pyJoinS, hd,
      pySplitCh_pyJoinCh '\n' (L.map String.data) hmapne hmapmem,
      map_mk_data]
  · intro cs
    exact pySplitCh_length '\n' cs

theorem multiline_value_witness :
    multipleTextEditData (pyJoinS "\n" ["Foo", "Bar"])
      = pyJoinS ", " ["Foo", "Bar"] ∧
    (∀ cs : List Char,
      (pySplitCh '\n' cs).length = cs.count '\n' + 1) :=
  multiline_value ["Foo", "Bar"] (by simp) (by decide)

/-- C8: a schema fragment without a `"name"` entry does not build with the
name defaulting to the empty string, as the spec (and the constructor's
own docstring example, whose top-level fragment has no `"name"`) say: the
subscript `tree["name"]` raises `KeyError`, which also aborts the
enclosing `load_from_file`. -/
theorem missing_name_key_error :
    buildNode (Schema.mk none none (some (.cons scIssue .nil)))
      = .error .keyError ∧
    (AdaptiveTreeForm.mk none).load_from_file
        (.ok (Schema.mk none none (some (.cons scIssue .nil))))
      = (AdaptiveTreeForm.mk none, some .keyError) :=
  ⟨rfl, rfl⟩

/-- C9: the registry entry `"MultipleFilesEdit"` resolves to the same
class as `"MultipleTextEdit"`, so a multi-file field's value function is
the multi-line join-with-`", "` function; the declared `MultipleFilesEdit`
class itself has no `data` implementation (it would raise
`NotImplementedError`). -/
theorem multifiles_same_as_multitext :
    alookup SUPPORTED_USER_FIELD_TYPES "MultipleFilesEdit"
      = alookup SUPPORTED_USER_FIELD_TYPES "MultipleTextEdit" ∧
    alookup SUPPORTED_USER_FIELD_TYPES "MultipleFilesEdit"
      = some FieldClass.multipleTextEdit ∧
    (∀ nm raw : String,
      (Field.mk nm .multipleTextEdit raw).data
        = some (multipleTextEditData raw)) ∧
    (∀ nm raw : String, (Field.mk nm .multipleFilesEdit raw).data = none) :=
  ⟨rfl, rfl, fun _ _ => rfl, fun _ _ => rfl⟩

/-- C10: when the loaded schema's root fragment has no `subwidgets` (the
key absent or an empty list), the built root has no combo box, and the
root branch of `data()` reaches its error case
(`self._select_combo.currentText()` on `None`) instead of returning a
string. -/
theorem empty_root_output_none (nmO : Option String)
    (prO : Option (List PropertyInfo)) (swO : Option SchemaList) (n : Node)
    (hempty : swO = none ∨ swO = some .nil)
    (hb : buildNode (.mk nmO prO swO) = .ok n) :
    n.data false = none := by
  cases nmO with
  | none => simp [buildNode] at hb
  | some nm =>
    rw [buildNode] at hb
    have hsub : buildSubsOpt swO = .ok .nil := by
      rcases hempty with h | h <;> subst h <;> rfl
    rw [hsub] at hb
    cases hp : buildPropsOpt prO with
    | error e =>
      rw [hp] at hb
      exact absurd hb (by simp [Except.bind])
    | ok props =>
      rw [hp] at hb
      simp only [Except.bind] at hb
      cases hb
      rfl

theorem empty_root_output_none_witness :
    (Node.mk "" [] .nil none none false).data false = none :=
  empty_root_output_none (some "") none none
    (Node.mk "" [] .nil none none false) (Or.inl rfl) rfl

end AdaptiveTreeWidget